import Mathlib

/-!
Shallow embedding of the harvesting pipeline of the
wiley-open-access-pdf-downloader repository (src/publishers/wiley_library.py,
src/utils.py) and proofs about it.

Network interaction is modelled by explicit worlds and oracles: one value of
such a world fixes the outcome of every HTTP request a run would make, and the
embedded functions are pure functions of the world, mirroring how the
repository unit tests replace the network layer.
-/

/- ===============================================================
   Character classes and Python string primitives
   =============================================================== -/

/-- Whitespace as the Python functions str.strip and str.split treat ASCII
text and as the regex class matches it: space, tab, newline, carriage
return, vertical tab, form feed. -/
def isPySpace (c : Char) : Bool :=
  c == ' ' || c == '\t' || c == '\n' || c == '\r' || c == '\x0b' || c == '\x0c'

/-- One decimal digit, the regex class d over ASCII text. -/
def isDigitChar (c : Char) : Bool :=
  c.isDigit

/-- Drop trailing whitespace: the right half of the Python function str.strip. -/
def stripEnd (l : List Char) : List Char :=
  (l.reverse.dropWhile isPySpace).reverse

/-- The Python function str.strip on a list of characters: drop leading and
trailing whitespace. -/
def stripList (l : List Char) : List Char :=
  stripEnd (l.dropWhile isPySpace)

/-- The Python function str.strip on a String. -/
def pyStrip (s : String) : String :=
  String.mk (stripList s.toList)

/- ===============================================================
   DOI normalizer: clean_doi and the regex DOI_CORE_RE
   (src/publishers/wiley_library.py lines 35-42)
   =============================================================== -/

/-- The lazy tail of the regex DOI_CORE_RE: after the slash the pattern takes
the shortest nonempty run of non-whitespace characters whose next position
is a literal at sign or the end of the (stripped) input. Returns the
consumed run, or none when no such run exists. -/
def lazyCore : List Char → Option (List Char)
  | [] => none
  | c :: rest =>
    if isPySpace c then none
    else
      match rest with
      | [] => some [c]
      | d :: _ =>
        if d = '@' then some [c]
        else
          match lazyCore rest with
          | some t => some (c :: t)
          | none => none

/-- Anchored match of the regex DOI_CORE_RE against a stripped input,
returning group 1: the literal prefix 10., four to nine digits, a slash,
then the lazy suffix of lazyCore. The greedy digit run is forced to the
maximal one because a slash is not a digit. -/
def doiCoreMatch (l : List Char) : Option (List Char) :=
  match l with
  | c1 :: c0 :: cd :: rest =>
    if c1 = '1' ∧ c0 = '0' ∧ cd = '.' then
      let ds := rest.takeWhile isDigitChar
      if 4 ≤ ds.length ∧ ds.length ≤ 9 then
        match rest.dropWhile isDigitChar with
        | c3 :: tail =>
          if c3 = '/' then
            match lazyCore tail with
            | some t => some ('1' :: '0' :: '.' :: (ds ++ '/' :: t))
            | none => none
          else none
        | [] => none
      else none
    else none
  | _ => none

/-- The function clean_doi of src/publishers/wiley_library.py: None and the
empty string map to None (Python falsiness of the raw argument), otherwise
the input is stripped, matched against DOI_CORE_RE, and either group 1 or
the stripped input itself is returned. -/
def clean_doi (raw : Option String) : Option String :=
  match raw with
  | none => none
  | some r =>
    if r = "" then none
    else
      match doiCoreMatch (stripList r.toList) with
      | some core => some (String.mk core)
      | none => some (String.mk (stripList r.toList))

example : clean_doi (some "10.1002/abc@v1") = some "10.1002/abc" := by decide
example : clean_doi (some "10.1002/xyz") = some "10.1002/xyz" := by decide
example : clean_doi none = none := by decide
example : clean_doi (some " ") = some "" := by decide
example : clean_doi (some "") = none := by decide
example : clean_doi (some "10.1002/@v1") = some "10.1002/@v1" := by decide

/- ===============================================================
   Lemmas about the string primitives
   =============================================================== -/

lemma length_dropWhile_le (p : Char → Bool) (l : List Char) :
    (l.dropWhile p).length ≤ l.length :=
  (List.dropWhile_suffix p).length_le

lemma dropWhile_dropWhile (p : Char → Bool) (l : List Char) :
    (l.dropWhile p).dropWhile p = l.dropWhile p := by
  induction l with
  | nil => simp
  | cons c r ih =>
    by_cases h : p c
    · simpa [List.dropWhile_cons, h] using ih
    · simp [List.dropWhile_cons, h]

lemma dropWhile_app_last (p : Char → Bool) (z : List Char) (c : Char) :
    (z ++ [c]).dropWhile p = [] ∨ ∃ z', (z ++ [c]).dropWhile p = z' ++ [c] := by
  induction z with
  | nil =>
    by_cases h : p c
    · left; simp [List.dropWhile_cons, h]
    · right; exact ⟨[], by simp [List.dropWhile_cons, h]⟩
  | cons a z2 ih =>
    by_cases h : p a
    · simpa [List.dropWhile_cons, h] using ih
    · right; exact ⟨a :: z2, by simp [List.dropWhile_cons, h]⟩

lemma head_not_space_of_dropWhile_self (p : Char → Bool) (c : Char) (r : List Char)
    (h : (c :: r).dropWhile p = c :: r) : p c = false := by
  by_contra hb
  have hc : p c = true := by simpa using hb
  rw [List.dropWhile_cons, if_pos hc] at h
  have hlen := congrArg List.length h
  have hle := length_dropWhile_le p r
  simp at hlen
  omega

lemma stripEnd_noLead (l : List Char) (h : l.dropWhile isPySpace = l) :
    (stripEnd l).dropWhile isPySpace = stripEnd l := by
  cases l with
  | nil => simp [stripEnd]
  | cons c r =>
    have hc : isPySpace c = false := head_not_space_of_dropWhile_self _ _ _ h
    have hrev : (c :: r).reverse = r.reverse ++ [c] := by simp
    rcases dropWhile_app_last isPySpace r.reverse c with hz | ⟨z', hz⟩
    · simp [stripEnd, hrev, hz]
    · simp [stripEnd, hrev, hz, List.dropWhile_cons, hc]

lemma stripEnd_idem (l : List Char) : stripEnd (stripEnd l) = stripEnd l := by
  unfold stripEnd
  rw [List.reverse_reverse, dropWhile_dropWhile]

lemma stripList_idem (l : List Char) : stripList (stripList l) = stripList l := by
  unfold stripList
  rw [stripEnd_noLead _ (dropWhile_dropWhile _ _), stripEnd_idem]

lemma dropWhile_of_all (p : Char → Bool) (l : List Char)
    (h : ∀ c ∈ l, p c = false) : l.dropWhile p = l := by
  cases l with
  | nil => simp
  | cons c r => simp [List.dropWhile_cons, h c (by simp)]

lemma stripList_of_all (l : List Char) (h : ∀ c ∈ l, isPySpace c = false) :
    stripList l = l := by
  unfold stripList stripEnd
  rw [dropWhile_of_all _ _ h, dropWhile_of_all, List.reverse_reverse]
  intro c hc
  exact h c (by simpa using hc)

/- ===============================================================
   Lemmas about the DOI regex model
   =============================================================== -/

lemma lazyCore_singleton (c : Char) (hc : isPySpace c = false) :
    lazyCore [c] = some [c] := by
  simp [lazyCore, hc]

lemma lazyCore_at_sign (c : Char) (r : List Char) (hc : isPySpace c = false) :
    lazyCore (c :: '@' :: r) = some [c] := by
  simp [lazyCore, hc]

lemma lazyCore_cons_cons (c d : Char) (r : List Char)
    (hc : isPySpace c = false) (hd : d ≠ '@') :
    lazyCore (c :: d :: r) =
      match lazyCore (d :: r) with
      | some t => some (c :: t)
      | none => none := by
  simp only [lazyCore, hc, Bool.false_eq_true, if_false, hd, if_neg hd]

lemma lazyCore_split (c : Char) (t' rest : List Char)
    (hc : isPySpace c = false)
    (ht : ∀ x ∈ t', isPySpace x = false ∧ x ≠ '@')
    (hrest : rest = [] ∨ ∃ m, rest = '@' :: m) :
    lazyCore (c :: (t' ++ rest)) = some (c :: t') := by
  induction t' generalizing c with
  | nil =>
    rcases hrest with h | ⟨m, h⟩ <;> subst h
    · simpa using lazyCore_singleton c hc
    · simpa using lazyCore_at_sign c m hc
  | cons e t2 ih =>
    have he := ht e (by simp)
    have hrec := ih e he.1 (fun x hx => ht x (by simp [hx]))
    have hsplit : (e :: t2) ++ rest = e :: (t2 ++ rest) := by simp
    rw [hsplit, lazyCore_cons_cons c e _ hc he.2, hrec]

lemma lazyCore_shape (l t : List Char) (h : lazyCore l = some t) :
    ∃ c t' rest, l = c :: (t' ++ rest) ∧ t = c :: t' ∧ isPySpace c = false ∧
      (∀ x ∈ t', isPySpace x = false ∧ x ≠ '@') ∧
      (rest = [] ∨ ∃ m, rest = '@' :: m) := by
  induction l generalizing t with
  | nil => simp [lazyCore] at h
  | cons c r1 ih =>
    by_cases hc : isPySpace c
    · simp [lazyCore, hc] at h
    · have hc' : isPySpace c = false := by simpa using hc
      cases r1 with
      | nil =>
        rw [lazyCore_singleton c hc'] at h
        obtain rfl : t = [c] := (Option.some.injEq _ _).mp h.symm
        exact ⟨c, [], [], by simp, by simp, hc', by simp, Or.inl rfl⟩
      | cons d r2 =>
        by_cases hd : d = '@'
        · subst hd
          rw [lazyCore_at_sign c r2 hc'] at h
          obtain rfl : t = [c] := (Option.some.injEq _ _).mp h.symm
          exact ⟨c, [], '@' :: r2, by simp, by simp, hc', by simp,
            Or.inr ⟨r2, rfl⟩⟩
        · rw [lazyCore_cons_cons c d r2 hc' hd] at h
          cases hrec : lazyCore (d :: r2) with
          | none => rw [hrec] at h; exact absurd h (by simp)
          | some t0 =>
            rw [hrec] at h
            obtain rfl : t = c :: t0 := (Option.some.injEq _ _).mp h.symm
            obtain ⟨c2, t'', rest', heq, ht0, hc2, ht'', hrest'⟩ := ih t0 hrec
            have hc2d : c2 = d := by
              have := congrArg (fun l => l.head?) heq
              simpa using this.symm
            refine ⟨c, t0, rest', ?_, by simp, hc', ?_, hrest'⟩
            · have hdr : d :: r2 = t0 ++ rest' := by rw [heq, ht0]; simp
              simp [hdr]
            · intro x hx
              rw [ht0] at hx
              rcases List.mem_cons.mp hx with hx | hx
              · subst hx
                exact ⟨hc2, hc2d ▸ hd⟩
              · exact ht'' x hx

lemma lazyCore_fix (l t : List Char) (h : lazyCore l = some t) :
    lazyCore t = some t := by
  obtain ⟨c, t', rest, _, ht, hc, ht', _⟩ := lazyCore_shape l t h
  subst ht
  have := lazyCore_split c t' [] hc ht' (Or.inl rfl)
  simpa using this

lemma lazyCore_nonspace (l t : List Char) (h : lazyCore l = some t) :
    ∀ x ∈ t, isPySpace x = false := by
  obtain ⟨c, t', rest, _, ht, hc, ht', _⟩ := lazyCore_shape l t h
  subst ht
  intro x hx
  rcases List.mem_cons.mp hx with hx | hx
  · subst hx; exact hc
  · exact (ht' x hx).1

lemma takeWhile_all_app (p : Char → Bool) (ds : List Char) (x : Char) (r : List Char)
    (hds : ∀ d ∈ ds, p d = true) (hx : p x = false) :
    (ds ++ x :: r).takeWhile p = ds ∧ (ds ++ x :: r).dropWhile p = x :: r := by
  induction ds with
  | nil => simp [List.takeWhile_cons, List.dropWhile_cons, hx]
  | cons a ds2 ih =>
    have ha := hds a (by simp)
    have h2 := ih (fun d hd => hds d (by simp [hd]))
    simp [List.takeWhile_cons, List.dropWhile_cons, ha, h2.1, h2.2]

lemma digit_not_space (c : Char) (h : isDigitChar c = true) : isPySpace c = false := by
  by_contra hb
  have hs : isPySpace c = true := by simpa using hb
  simp only [isPySpace, Bool.or_eq_true, beq_iff_eq] at hs
  rcases hs with ((((rfl | rfl) | rfl) | rfl) | rfl) | rfl <;> exact absurd h (by decide)

lemma doiCoreMatch_split (ds tail t : List Char)
    (hds : ∀ d ∈ ds, isDigitChar d = true) (h4 : 4 ≤ ds.length) (h9 : ds.length ≤ 9)
    (hl : lazyCore tail = some t) :
    doiCoreMatch ('1' :: '0' :: '.' :: (ds ++ '/' :: tail)) =
      some ('1' :: '0' :: '.' :: (ds ++ '/' :: t)) := by
  have htw := takeWhile_all_app isDigitChar ds '/' tail hds (by decide)
  simp [doiCoreMatch, htw.1, htw.2, hl, h4, h9]

lemma doiCoreMatch_shape (l core : List Char) (h : doiCoreMatch l = some core) :
    ∃ ds tail t, l = '1' :: '0' :: '.' :: (ds ++ '/' :: tail) ∧
      core = '1' :: '0' :: '.' :: (ds ++ '/' :: t) ∧
      (∀ d ∈ ds, isDigitChar d = true) ∧ 4 ≤ ds.length ∧ ds.length ≤ 9 ∧
      lazyCore tail = some t := by
  cases l with
  | nil => simp [doiCoreMatch] at h
  | cons c1 l1 =>
    cases l1 with
    | nil => simp [doiCoreMatch] at h
    | cons c0 l2 =>
      cases l2 with
      | nil => simp [doiCoreMatch] at h
      | cons cd rest =>
        simp only [doiCoreMatch] at h
        by_cases h10 : c1 = '1' ∧ c0 = '0' ∧ cd = '.'
        · rw [if_pos h10] at h
          obtain ⟨rfl, rfl, rfl⟩ := h10
          by_cases hlen : 4 ≤ (rest.takeWhile isDigitChar).length ∧
              (rest.takeWhile isDigitChar).length ≤ 9
          · rw [if_pos hlen] at h
            cases hdrop : rest.dropWhile isDigitChar with
            | nil => rw [hdrop] at h; simp at h
            | cons c3 tail =>
              rw [hdrop] at h
              simp only at h
              by_cases h3 : c3 = '/'
              · rw [if_pos h3] at h
                subst h3
                cases hl : lazyCore tail with
                | none => rw [hl] at h; simp at h
                | some t =>
                  rw [hl] at h
                  simp only [Option.some.injEq] at h
                  refine ⟨rest.takeWhile isDigitChar, tail, t, ?_, by rw [← h],
                    fun d hd => List.mem_takeWhile_imp hd, hlen.1, hlen.2, hl⟩
                  have hrt : rest = rest.takeWhile isDigitChar ++ '/' :: tail := by
                    conv_lhs => rw [← List.takeWhile_append_dropWhile isDigitChar rest]
                    rw [hdrop]
                  rw [← hrt]
              · rw [if_neg h3] at h; simp at h
          · rw [if_neg hlen] at h; simp at h
        · rw [if_neg h10] at h; simp at h

lemma doiCoreMatch_fix (l core : List Char) (h : doiCoreMatch l = some core) :
    doiCoreMatch core = some core := by
  obtain ⟨ds, tail, t, _, hcore, hds, h4, h9, hl⟩ := doiCoreMatch_shape l core h
  rw [hcore]
  exact doiCoreMatch_split ds t t hds h4 h9 (lazyCore_fix tail t hl)

lemma doiCoreMatch_nonspace (l core : List Char) (h : doiCoreMatch l = some core) :
    ∀ x ∈ core, isPySpace x = false := by
  obtain ⟨ds, tail, t, _, hcore, hds, _, _, hl⟩ := doiCoreMatch_shape l core h
  subst hcore
  intro x hx
  simp only [List.mem_cons, List.mem_append] at hx
  rcases hx with rfl | rfl | rfl | (hx | rfl | hx)
  · decide
  · decide
  · decide
  · exact digit_not_space x (hds x hx)
  · decide
  · exact lazyCore_nonspace tail t hl x hx

lemma clean_doi_some (s : String) (hs : s ≠ "") :
    clean_doi (some s) =
      match doiCoreMatch (stripList s.toList) with
      | some core => some (String.mk core)
      | none => some (String.mk (stripList s.toList)) := by
  simp [clean_doi, hs]

/- ===============================================================
   Claim C6: idempotence of the DOI normalizer
   =============================================================== -/

/-- C6 counterexample: the claim that normalize(normalize(d)) == normalize(d)
holds for every input string d is false. At the whitespace-only input
consisting of one space, clean_doi returns the empty string (the strip leaves
nothing and the regex does not match), but clean_doi of the empty string is
None because the empty string is falsy in Python, so applying clean_doi twice
gives None while applying it once gives the empty string. -/
theorem C6_counterexample :
    (clean_doi (clean_doi (some " ")) = clean_doi (some " ")) = False :=
  eq_false (by decide)

/-- C6 amended: clean_doi is idempotent on None, on the empty string, and on
every string whose stripped form is nonempty; the only inputs violating
idempotence are nonempty whitespace-only strings, which clean_doi maps to
the empty string while a second application maps the empty string to None. -/
theorem C6_idempotent_amended :
    clean_doi (clean_doi none) = clean_doi none ∧
    clean_doi (clean_doi (some "")) = clean_doi (some "") ∧
    ∀ s : String, stripList s.toList ≠ [] →
      clean_doi (clean_doi (some s)) = clean_doi (some s) := by
  refine ⟨rfl, rfl, ?_⟩
  intro s hs
  have hsne : s ≠ "" := by
    intro h
    subst h
    exact hs rfl
  cases hm : doiCoreMatch (stripList s.toList) with
  | some core =>
    rw [clean_doi_some s hsne, hm]
    have hclen : core ≠ [] := by
      obtain ⟨ds, tail, t, _, hcore, _⟩ := doiCoreMatch_shape _ _ hm
      rw [hcore]
      simp
    have hmkne : String.mk core ≠ "" := by
      intro hh
      exact hclen (by simpa using congrArg String.data hh)
    rw [clean_doi_some _ hmkne]
    have htl : (String.mk core).toList = core := rfl
    rw [htl, stripList_of_all core (doiCoreMatch_nonspace _ _ hm),
      doiCoreMatch_fix _ _ hm]
  | none =>
    rw [clean_doi_some s hsne, hm]
    have hmkne : String.mk (stripList s.toList) ≠ "" := by
      intro hh
      exact hs (by simpa using congrArg String.data hh)
    rw [clean_doi_some _ hmkne]
    have htl : (String.mk (stripList s.toList)).toList = stripList s.toList := rfl
    rw [htl, stripList_idem, hm]

/-- C6 witness: idempotence at a concrete decorated DOI with surrounding
whitespace. -/
theorem C6_idempotent_witness :
    clean_doi (clean_doi (some " 10.1002/abc@v1 ")) = clean_doi (some " 10.1002/abc@v1 ") :=
  C6_idempotent_amended.2.2 " 10.1002/abc@v1 " (by decide)

/- ===============================================================
   Claim C7: the full contract of the DOI normalizer
   =============================================================== -/

/-- C7: clean_doi returns None on None and on the empty string; it strips
whitespace; when the stripped input starts with the DOI pattern (the literal
10. , four to nine digits, a slash, a nonempty run of non-whitespace suffix
characters) it returns exactly the pattern part, cutting the input at the
first at sign that follows at least one suffix character, and when the
stripped input admits no such decomposition it returns the stripped input
unchanged (the function is total, so it never raises). The two concrete
examples of the spec are included. -/
theorem C7_normalizer_contract :
    clean_doi none = none ∧
    clean_doi (some "") = none ∧
    clean_doi (some "10.1002/abc@v1") = some "10.1002/abc" ∧
    clean_doi (some "10.1002/xyz") = some "10.1002/xyz" ∧
    (∀ (s : String) (ds : List Char) (c : Char) (t' rest : List Char),
      stripList s.toList = '1' :: '0' :: '.' :: (ds ++ '/' :: (c :: (t' ++ rest))) →
      (∀ d ∈ ds, isDigitChar d = true) → 4 ≤ ds.length → ds.length ≤ 9 →
      isPySpace c = false → (∀ x ∈ t', isPySpace x = false ∧ x ≠ '@') →
      (rest = [] ∨ ∃ m, rest = '@' :: m) →
      clean_doi (some s) =
        some (String.mk ('1' :: '0' :: '.' :: (ds ++ '/' :: (c :: t'))))) ∧
    (∀ s : String, s ≠ "" →
      (¬ ∃ (ds : List Char) (c : Char) (t' rest : List Char),
        stripList s.toList = '1' :: '0' :: '.' :: (ds ++ '/' :: (c :: (t' ++ rest))) ∧
        (∀ d ∈ ds, isDigitChar d = true) ∧ 4 ≤ ds.length ∧ ds.length ≤ 9 ∧
        isPySpace c = false ∧ (∀ x ∈ t', isPySpace x = false ∧ x ≠ '@') ∧
        (rest = [] ∨ ∃ m, rest = '@' :: m)) →
      clean_doi (some s) = some (pyStrip s)) := by
  refine ⟨rfl, rfl, by decide, by decide, ?_, ?_⟩
  · intro s ds c t' rest hstrip hds h4 h9 hc ht' hrest
    have hsne : s ≠ "" := by
      intro h
      subst h
      have hnil : stripList ("" : String).toList = [] := rfl
      rw [hnil] at hstrip
      exact List.noConfusion hstrip
    have hl := lazyCore_split c t' rest hc ht' hrest
    have hmatch := doiCoreMatch_split ds (c :: (t' ++ rest)) (c :: t') hds h4 h9 hl
    rw [clean_doi_some s hsne, hstrip, hmatch]
  · intro s hsne hno
    cases hm : doiCoreMatch (stripList s.toList) with
    | none =>
      rw [clean_doi_some s hsne, hm]
      rfl
    | some core =>
      exfalso
      apply hno
      obtain ⟨ds, tail, t, hleq, _, hds, h4, h9, hlz⟩ := doiCoreMatch_shape _ _ hm
      obtain ⟨c, t', rest, htail, _, hc, ht', hrest⟩ := lazyCore_shape tail t hlz
      exact ⟨ds, c, t', rest, by rw [hleq, htail], hds, h4, h9, hc, ht', hrest⟩

/-- C7 witness: the matched branch of the contract at a concrete decorated
input with surrounding whitespace, and the None branch. -/
theorem C7_normalizer_witness :
    clean_doi (some " 10.1029/2007gl030025@x") =
      some (String.mk ('1' :: '0' :: '.' :: (['1', '0', '2', '9'] ++ '/' ::
        ('2' :: ['0', '0', '7', 'g', 'l', '0', '3', '0', '0', '2', '5'])))) :=
  C7_normalizer_contract.2.2.2.2.1 " 10.1029/2007gl030025@x"
    ['1', '0', '2', '9'] '2' ['0', '0', '7', 'g', 'l', '0', '3', '0', '0', '2', '5']
    ['@', 'x'] (by decide) (by decide) (by decide) (by decide) (by decide)
    (by decide) (Or.inr ⟨['x'], rfl⟩)

/- ===============================================================
   Record page fetcher: _fetch_wiley_page
   (src/publishers/wiley_library.py lines 167-206)
   =============================================================== -/

/-- Outcome of one GET attempt of the page fetcher. A response carries the
HTTP status; for a 200 response, parsed is what parsing the XML body would
yield (record node handles plus the nextRecordPosition scalar), none standing
for a malformed body whose parse raises. exc is a transport-level exception
raised by the request itself. -/
inductive SruAttempt where
  | resp (status : Nat) (parsed : Option (List Nat × Option Nat))
  | exc
  deriving DecidableEq

/-- Statuses the fetcher and the PDF fetcher treat as retryable. -/
def retryStatuses : List Nat := [403, 429, 500, 502, 503, 504]

/-- How a run of _fetch_wiley_page ends: a parsed page, a parse error
propagating out of the attempt loop, the re-raise of the last recorded
exception after exhaustion, or the final return of an empty page when no
exception was recorded. -/
inductive SruResult where
  | success (nodes : List Nat) (nextPos : Option Nat)
  | parseRaised (attempt : Nat)
  | excRaised (attempt : Nat)
  | emptyReturn
  deriving DecidableEq

/-- Observable trace of one _fetch_wiley_page run: how it ended, how many GET
requests it made, and the sleeps it performed in order (in seconds). -/
structure SruRun where
  result : SruResult
  calls : Nat
  sleeps : List ℚ
  deriving DecidableEq

/-- Attempts on which the loop body sleeps before continuing: a transport
exception, a retryable status, or any other status in 400..599 (whose
raise_for_status raises an HTTPError that the except clause catches before
sleeping). Mirrors the branch structure of the source loop. -/
def sleepsAtSru (a : SruAttempt) : Bool :=
  match a with
  | .exc => true
  | .resp status _ =>
    if status = 200 then false
    else if retryStatuses.contains status then true
    else if 400 ≤ status ∧ status < 600 then true
    else false

/-- Attempts that set last_exc: a transport exception, or a non-retryable
status in 400..599 whose raise_for_status HTTPError is caught. -/
def recordsExcSru (a : SruAttempt) : Bool :=
  match a with
  | .exc => true
  | .resp status _ =>
    if status = 200 then false
    else if retryStatuses.contains status then false
    else if 400 ≤ status ∧ status < 600 then true
    else false

/-- Attempts that end the loop on the spot: only a 200 response (returning its
parse, or propagating the parse error). -/
def decidesSru (a : SruAttempt) : Bool :=
  match a with
  | .exc => false
  | .resp status _ => status == 200

/-- The attempt loop of _fetch_wiley_page over the remaining attempt indices,
threading last_exc, the request count and the sleep log. -/
def fetchGo (w : Nat → SruAttempt) (pause : ℚ) :
    List Nat → Option Nat → Nat → List ℚ → SruRun
  | [], lastExc, calls, sleeps =>
    { result :=
        match lastExc with
        | some j => SruResult.excRaised j
        | none => SruResult.emptyReturn,
      calls := calls, sleeps := sleeps }
  | i :: rest, lastExc, calls, sleeps =>
    match w i with
    | .exc => fetchGo w pause rest (some i) (calls + 1) (sleeps ++ [(2 : ℚ) ^ i * pause])
    | .resp status parsed =>
      if status = 200 then
        match parsed with
        | some (nodes, nextPos) =>
          { result := SruResult.success nodes nextPos, calls := calls + 1, sleeps := sleeps }
        | none =>
          { result := SruResult.parseRaised i, calls := calls + 1, sleeps := sleeps }
      else if retryStatuses.contains status then
        fetchGo w pause rest lastExc (calls + 1) (sleeps ++ [(2 : ℚ) ^ i * pause])
      else if 400 ≤ status ∧ status < 600 then
        fetchGo w pause rest (some i) (calls + 1) (sleeps ++ [(2 : ℚ) ^ i * pause])
      else
        fetchGo w pause rest lastExc (calls + 1) sleeps

/-- The function _fetch_wiley_page of src/publishers/wiley_library.py as a
function of the world w giving the outcome of each attempt; the source is
called with retries = 4 and pause = 0.5. -/
def fetch_wiley_page (w : Nat → SruAttempt) (retries : Nat) (pause : ℚ) : SruRun :=
  fetchGo w pause (List.range retries) none 0 []

/-- Backoff sleeps the fetcher performs over the first n attempts: the amount
at attempt j is 2 to the j times pause. -/
def backoffsSru (w : Nat → SruAttempt) (pause : ℚ) (n : Nat) : List ℚ :=
  (List.range n).filterMap fun j =>
    if sleepsAtSru (w j) then some ((2 : ℚ) ^ j * pause) else none

/-- Index of the last attempt among the first n that recorded an exception. -/
def lastExcIdxSru (w : Nat → SruAttempt) (n : Nat) : Option Nat :=
  (List.range n).foldl (fun acc j => if recordsExcSru (w j) then some j else acc) none

lemma fetchGo_calls_le (w : Nat → SruAttempt) (pause : ℚ) (idxs : List Nat) :
    ∀ lastExc calls sleeps,
      (fetchGo w pause idxs lastExc calls sleeps).calls ≤ calls + idxs.length := by
  induction idxs with
  | nil => intro lastExc calls sleeps; simp [fetchGo]
  | cons i rest ih =>
    intro lastExc calls sleeps
    simp only [fetchGo]
    cases w i with
    | exc =>
      dsimp only
      have := ih (some i) (calls + 1) (sleeps ++ [(2 : ℚ) ^ i * pause])
      simp only [List.length_cons]
      omega
    | resp status parsed =>
      dsimp only
      by_cases h200 : status = 200
      · rw [if_pos h200]
        cases parsed with
        | some p => simp
        | none => simp
      · rw [if_neg h200]
        by_cases hr : retryStatuses.contains status
        · rw [if_pos hr]
          have := ih lastExc (calls + 1) (sleeps ++ [(2 : ℚ) ^ i * pause])
          simp only [List.length_cons]
          omega
        · rw [if_neg hr]
          by_cases hrange : 400 ≤ status ∧ status < 600
          · rw [if_pos hrange]
            have := ih (some i) (calls + 1) (sleeps ++ [(2 : ℚ) ^ i * pause])
            simp only [List.length_cons]
            omega
          · rw [if_neg hrange]
            have := ih lastExc (calls + 1) sleeps
            simp only [List.length_cons]
            omega

lemma fetchGo_no_decide (w : Nat → SruAttempt) (pause : ℚ) (idxs : List Nat) :
    ∀ lastExc calls sleeps, (∀ j ∈ idxs, decidesSru (w j) = false) →
      fetchGo w pause idxs lastExc calls sleeps =
        { result :=
            match idxs.foldl (fun acc j => if recordsExcSru (w j) then some j else acc)
                lastExc with
            | some j => SruResult.excRaised j
            | none => SruResult.emptyReturn,
          calls := calls + idxs.length,
          sleeps := sleeps ++ idxs.filterMap fun j =>
            if sleepsAtSru (w j) then some ((2 : ℚ) ^ j * pause) else none } := by
  induction idxs with
  | nil => intro lastExc calls sleeps _; simp [fetchGo]
  | cons i rest ih =>
    intro lastExc calls sleeps hall
    have hi := hall i (by simp)
    have hrest : ∀ j ∈ rest, decidesSru (w j) = false := fun j hj => hall j (by simp [hj])
    simp only [fetchGo]
    cases hw : w i with
    | exc =>
      dsimp only
      rw [ih _ _ _ hrest]
      simp only [List.foldl_cons, List.filterMap_cons, hw, recordsExcSru, sleepsAtSru,
        List.length_cons, if_true, SruRun.mk.injEq]
      exact ⟨by trivial, by omega, by simp⟩
    | resp status parsed =>
      have h200 : ¬ status = 200 := by
        rw [hw] at hi
        simpa [decidesSru] using hi
      dsimp only
      rw [if_neg h200]
      by_cases hr : retryStatuses.contains status
      · rw [if_pos hr]
        rw [ih _ _ _ hrest]
        simp only [List.foldl_cons, List.filterMap_cons, hw, recordsExcSru, sleepsAtSru,
          List.length_cons, SruRun.mk.injEq, if_neg h200, if_pos hr, if_true, if_false]
        exact ⟨by trivial, by omega, by simp⟩
      · rw [if_neg hr]
        by_cases hrange : 400 ≤ status ∧ status < 600
        · rw [if_pos hrange]
          rw [ih _ _ _ hrest]
          simp only [List.foldl_cons, List.filterMap_cons, hw, recordsExcSru, sleepsAtSru,
            List.length_cons, SruRun.mk.injEq, if_neg h200, if_neg hr, if_pos hrange,
            if_true, if_false]
          exact ⟨by trivial, by omega, by simp⟩
        · rw [if_neg hrange]
          rw [ih _ _ _ hrest]
          simp only [List.foldl_cons, List.filterMap_cons, hw, recordsExcSru, sleepsAtSru,
            List.length_cons, SruRun.mk.injEq, if_neg h200, if_neg hr, if_neg hrange,
            if_true, if_false]
          exact ⟨by trivial, by omega, by simp⟩

lemma fetchGo_first_ok (w : Nat → SruAttempt) (pause : ℚ) (nodes : List Nat)
    (np : Option Nat) (i : Nat) (post : List Nat) (pre : List Nat) :
    ∀ lastExc calls sleeps, (∀ j ∈ pre, decidesSru (w j) = false) →
      w i = SruAttempt.resp 200 (some (nodes, np)) →
      fetchGo w pause (pre ++ i :: post) lastExc calls sleeps =
        { result := SruResult.success nodes np,
          calls := calls + pre.length + 1,
          sleeps := sleeps ++ pre.filterMap fun j =>
            if sleepsAtSru (w j) then some ((2 : ℚ) ^ j * pause) else none } := by
  induction pre with
  | nil =>
    intro lastExc calls sleeps _ hok
    simp only [List.nil_append, fetchGo, hok]
    simp
  | cons a pre2 ih =>
    intro lastExc calls sleeps hall hok
    have ha := hall a (by simp)
    have hpre2 : ∀ j ∈ pre2, decidesSru (w j) = false := fun j hj => hall j (by simp [hj])
    simp only [List.cons_append, fetchGo, List.append_eq]
    cases hw : w a with
    | exc =>
      dsimp only
      rw [ih _ _ _ hpre2 hok]
      simp only [List.filterMap_cons, hw, sleepsAtSru, List.length_cons, SruRun.mk.injEq,
        if_true]
      exact ⟨by trivial, by omega, by simp⟩
    | resp status parsed =>
      have h200 : ¬ status = 200 := by
        rw [hw] at ha
        simpa [decidesSru] using ha
      dsimp only
      rw [if_neg h200]
      by_cases hr : retryStatuses.contains status
      · rw [if_pos hr]
        rw [ih _ _ _ hpre2 hok]
        simp only [List.filterMap_cons, hw, sleepsAtSru, List.length_cons, SruRun.mk.injEq,
          if_neg h200, if_pos hr, if_true, if_false]
        exact ⟨by trivial, by omega, by simp⟩
      · rw [if_neg hr]
        by_cases hrange : 400 ≤ status ∧ status < 600
        · rw [if_pos hrange]
          rw [ih _ _ _ hpre2 hok]
          simp only [List.filterMap_cons, hw, sleepsAtSru, List.length_cons,
            SruRun.mk.injEq, if_neg h200, if_neg hr, if_pos hrange, if_true, if_false]
          exact ⟨by trivial, by omega, by simp⟩
        · rw [if_neg hrange]
          rw [ih _ _ _ hpre2 hok]
          simp only [List.filterMap_cons, hw, sleepsAtSru, List.length_cons,
            SruRun.mk.injEq, if_neg h200, if_neg hr, if_neg hrange, if_true, if_false]
          exact ⟨by trivial, by omega, by simp⟩

/- ===============================================================
   Claim C3: retry policy of the page fetcher
   =============================================================== -/

/-- The part of claim C3 stating that an attempt whose status is non-200 and
outside the retry set makes the fetcher raise immediately: no further
attempt and no sleep would follow the first such attempt. -/
def c3ClaimImmediateRaise : Prop :=
  ∀ (w : Nat → SruAttempt) (pause : ℚ) (status : Nat)
    (parsed : Option (List Nat × Option Nat)),
    w 0 = SruAttempt.resp status parsed → status ≠ 200 →
    retryStatuses.contains status = false →
    (fetch_wiley_page w 4 pause).calls = 1 ∧ (fetch_wiley_page w 4 pause).sleeps = []

/-- C3 counterexample: with every attempt answering 404 (non-200, not in the
retry set), the fetcher does not raise immediately: raise_for_status raises
an HTTPError that the except clause for RequestException catches, so the
fetcher sleeps and retries, making all 4 requests. -/
theorem C3_counterexample : c3ClaimImmediateRaise = False := by
  apply eq_false
  intro h
  have h404 := h (fun _ => SruAttempt.resp 404 none) (1 / 2) 404 none rfl
    (by decide) (by decide)
  have hc : (fetch_wiley_page (fun _ => SruAttempt.resp 404 none) 4 (1 / 2)).calls = 4 := by
    decide
  rw [h404.1] at hc
  exact absurd hc (by decide)

/-- C3 amended: the fetcher makes at most 4 attempts; a 200 response (with
well-formed body) ends the run at once, returning the parsed page, after
having slept 2 to the j times pause seconds at exactly the earlier attempts j
that answered a retryable status, another 400..599 status (whose HTTPError is
caught and retried like a transport exception rather than raised
immediately), or a transport exception; if no attempt answers 200, all 4
requests are made and the last recorded exception, if any, is re-raised,
otherwise an empty page is returned. -/
theorem C3_fetchPage_amended :
    (∀ (w : Nat → SruAttempt) (pause : ℚ), (fetch_wiley_page w 4 pause).calls ≤ 4) ∧
    (∀ (w : Nat → SruAttempt) (pause : ℚ) (i : Nat) (nodes : List Nat) (np : Option Nat),
      i < 4 → w i = SruAttempt.resp 200 (some (nodes, np)) →
      (∀ j, j < i → decidesSru (w j) = false) →
      fetch_wiley_page w 4 pause =
        { result := SruResult.success nodes np, calls := i + 1,
          sleeps := backoffsSru w pause i }) ∧
    (∀ (w : Nat → SruAttempt) (pause : ℚ),
      (∀ i, i < 4 → decidesSru (w i) = false) →
      fetch_wiley_page w 4 pause =
        { result :=
            match lastExcIdxSru w 4 with
            | some j => SruResult.excRaised j
            | none => SruResult.emptyReturn,
          calls := 4, sleeps := backoffsSru w pause 4 }) := by
  refine ⟨?_, ?_, ?_⟩
  · intro w pause
    have h := fetchGo_calls_le w pause (List.range 4) none 0 []
    simpa [fetch_wiley_page] using h
  · intro w pause i nodes np hi hok hpre
    have hsplit : List.range 4 = List.range i ++ i :: List.range' (i + 1) (3 - i) := by
      have happ := List.range'_append 0 i (4 - i) 1
      simp only [Nat.one_mul, Nat.zero_add] at happ
      have h2 : List.range' i (4 - i) = i :: List.range' (i + 1) (3 - i) := by
        rw [show 4 - i = (3 - i) + 1 by omega, List.range'_succ]
      conv_lhs => rw [List.range_eq_range', show (4 : Nat) = 4 - i + i from by omega]
      rw [← happ, h2, ← List.range_eq_range']
    unfold fetch_wiley_page
    rw [hsplit, fetchGo_first_ok w pause nodes np i (List.range' (i + 1) (3 - i))
      (List.range i) none 0 [] (fun j hj => hpre j (List.mem_range.mp hj)) hok]
    simp [backoffsSru, List.length_range]
  · intro w pause hall
    have h := fetchGo_no_decide w pause (List.range 4) none 0 []
      (fun j hj => hall j (List.mem_range.mp hj))
    simpa [fetch_wiley_page, backoffsSru, lastExcIdxSru, List.length_range] using h

/-- World for the C3 witness: a transport exception, then a 503, then a
parsed 200 page. -/
def wC3 : Nat → SruAttempt := fun j =>
  if j = 0 then SruAttempt.exc
  else if j = 1 then SruAttempt.resp 503 none
  else SruAttempt.resp 200 (some ([7], some 21))

/-- C3 witness: the amended theorem applied at the concrete world wC3. -/
theorem C3_fetchPage_witness :
    fetch_wiley_page wC3 4 (1 / 2) =
      { result := SruResult.success [7] (some 21), calls := 3,
        sleeps := backoffsSru wC3 (1 / 2) 2 } :=
  C3_fetchPage_amended.2.1 wC3 (1 / 2) 2 [7] (some 21) (by decide) rfl (by decide)

/- ===============================================================
   Open-access prober: is_openaccess_pdf
   (src/publishers/wiley_library.py lines 241-284)
   =============================================================== -/

/-- Substring membership, the Python operator in over strings. -/
def containsSub (s pat : String) : Bool :=
  decide (pat.toList <:+: s.toList)

/-- ASCII lowercasing, the Python method str.lower over ASCII text. -/
def lowerStr (s : String) : String :=
  String.mk (s.toList.map Char.toLower)

/-- The lowered content type of a response: the Content-Type header or the
empty string when the header is absent, lowercased. -/
def ctypeOf (c : Option String) : String :=
  lowerStr (c.getD "")

/-- Outcome of one request of the prober: a response with its status and
optional Content-Type header, or a transport-level exception. -/
inductive ProbeOutcome where
  | resp (status : Nat) (contentType : Option String)
  | exc
  deriving DecidableEq

/-- World of one is_openaccess_pdf call: the outcome the HEAD request would
have, and the outcome the fallback streamed GET would have if performed. -/
structure ProbeWorld where
  head : ProbeOutcome
  get : ProbeOutcome
  deriving DecidableEq

/-- Condition under which the prober falls back from HEAD to a streamed GET:
status 403, 404 or 405, or an empty content type. -/
def probeFallback (status : Nat) (ctype : String) : Bool :=
  status == 403 || status == 404 || status == 405 || ctype == ""

/-- Whether the run performs the fallback GET: the HEAD answered (no
exception), was not a 200 PDF, and met the fallback condition. -/
def probeTakesFallback (w : ProbeWorld) : Bool :=
  match w.head with
  | .exc => false
  | .resp status hdr =>
    !(status == 200 && containsSub (ctypeOf hdr) "pdf") &&
      probeFallback status (ctypeOf hdr)

/-- The response that decides the outcome: the GET response when the fallback
is taken, the HEAD response otherwise. -/
def probeFinal (w : ProbeWorld) : ProbeOutcome :=
  if probeTakesFallback w then w.get else w.head

/-- The function is_openaccess_pdf of src/publishers/wiley_library.py as a
function of the probe world: some true for an open-access PDF, some false
for a definitive refusal, none when a request raised (Python returns
True / False / None). The final two branches of the source (the html or 403
check, and the unexpected-response fallthrough) both return False. -/
def is_openaccess_pdf (w : ProbeWorld) : Option Bool :=
  match w.head with
  | .exc => none
  | .resp status hdr =>
    if status = 200 ∧ containsSub (ctypeOf hdr) "pdf" = true then some true
    else if probeFallback status (ctypeOf hdr) then
      match w.get with
      | .exc => none
      | .resp gstatus ghdr =>
        if gstatus = 200 ∧ containsSub (ctypeOf ghdr) "pdf" = true then some true
        else some false
    else if containsSub (ctypeOf hdr) "html" = true ∨ status = 403 then some false
    else some false

/- ===============================================================
   Claim C4: contract of the open-access prober
   =============================================================== -/

/-- C4: the prober returns true only when the deciding response (GET when the
fallback was taken, HEAD otherwise) has status 200 and a PDF content type;
it returns none exactly when a performed request raised a transport
exception; and it returns false on the definitive signals: an HTML content
type on a non-fallback HEAD response, and any fallback GET response that is
not a 200 PDF (in particular terminal 403 and 404 responses). -/
theorem C4_prober :
    (∀ w : ProbeWorld, is_openaccess_pdf w = some true →
      ∃ status hdr, probeFinal w = ProbeOutcome.resp status hdr ∧ status = 200 ∧
        containsSub (ctypeOf hdr) "pdf" = true) ∧
    (∀ w : ProbeWorld, is_openaccess_pdf w = none ↔
      (w.head = ProbeOutcome.exc ∨
        (probeTakesFallback w = true ∧ w.get = ProbeOutcome.exc))) ∧
    (∀ (status : Nat) (hdr : Option String) (g : ProbeOutcome),
      containsSub (ctypeOf hdr) "html" = true →
      probeFallback status (ctypeOf hdr) = false →
      ¬(status = 200 ∧ containsSub (ctypeOf hdr) "pdf" = true) →
      is_openaccess_pdf ⟨ProbeOutcome.resp status hdr, g⟩ = some false) ∧
    (∀ (status gstatus : Nat) (hdr ghdr : Option String),
      probeTakesFallback ⟨ProbeOutcome.resp status hdr, ProbeOutcome.resp gstatus ghdr⟩
        = true →
      ¬(gstatus = 200 ∧ containsSub (ctypeOf ghdr) "pdf" = true) →
      is_openaccess_pdf ⟨ProbeOutcome.resp status hdr, ProbeOutcome.resp gstatus ghdr⟩
        = some false) := by
  refine ⟨?_, ?_, ?_, ?_⟩
  · rintro ⟨hd, gt⟩ h
    cases hd with
    | exc => simp [is_openaccess_pdf] at h
    | resp st hdr =>
      by_cases h1 : st = 200 ∧ containsSub (ctypeOf hdr) "pdf" = true
      · refine ⟨st, hdr, ?_, h1.1, h1.2⟩
        simp [probeFinal, probeTakesFallback, h1.1, h1.2]
      · simp only [is_openaccess_pdf, if_neg h1] at h
        by_cases h2 : probeFallback st (ctypeOf hdr) = true
        · rw [if_pos h2] at h
          cases gt with
          | exc => simp at h
          | resp gst ghdr =>
            dsimp only at h
            by_cases h3 : gst = 200 ∧ containsSub (ctypeOf ghdr) "pdf" = true
            · refine ⟨gst, ghdr, ?_, h3.1, h3.2⟩
              have hfb : probeTakesFallback ⟨ProbeOutcome.resp st hdr,
                  ProbeOutcome.resp gst ghdr⟩ = true := by
                simp only [probeTakesFallback, h2, Bool.and_true]
                simp only [not_and, Bool.not_eq_true'] at h1 ⊢
                rcases Nat.decEq st 200 with hne | heq
                · simp [hne]
                · simp [heq, h1 heq]
              simp [probeFinal, hfb]
            · rw [if_neg h3] at h
              simp at h
        · rw [if_neg h2] at h
          by_cases h4 : containsSub (ctypeOf hdr) "html" = true ∨ st = 403
          · rw [if_pos h4] at h
            simp at h
          · rw [if_neg h4] at h
            simp at h
  · rintro ⟨hd, gt⟩
    cases hd with
    | exc => simp [is_openaccess_pdf, probeTakesFallback]
    | resp st hdr =>
      by_cases h1 : st = 200 ∧ containsSub (ctypeOf hdr) "pdf" = true
      · simp only [is_openaccess_pdf, if_pos h1]
        constructor
        · intro h; exact absurd h (by simp)
        · rintro (h | ⟨hf, _⟩)
          · exact absurd h (by simp)
          · rw [probeTakesFallback] at hf
            simp only [h1.1, h1.2] at hf
            simp at hf
      · have hnb : (!(st == 200 && containsSub (ctypeOf hdr) "pdf")) = true := by
          simp only [not_and, Bool.not_eq_true'] at h1
          rcases Nat.decEq st 200 with hne | heq
          · simp [hne]
          · simp [heq, h1 heq]
        simp only [is_openaccess_pdf, if_neg h1]
        by_cases h2 : probeFallback st (ctypeOf hdr) = true
        · rw [if_pos h2]
          have hfb : probeTakesFallback ⟨ProbeOutcome.resp st hdr, gt⟩ = true := by
            simp [probeTakesFallback, hnb, h2]
          cases gt with
          | exc => simp [hfb]
          | resp gst ghdr =>
            by_cases h3 : gst = 200 ∧ containsSub (ctypeOf ghdr) "pdf" = true
            · simp [if_pos h3]
            · simp [if_neg h3]
        · rw [if_neg h2]
          have hfb : probeTakesFallback ⟨ProbeOutcome.resp st hdr, gt⟩ = false := by
            simp only [probeTakesFallback]
            simp only [Bool.and_eq_false_iff]
            right
            simpa using h2
          by_cases h4 : containsSub (ctypeOf hdr) "html" = true ∨ st = 403
          · rw [if_pos h4]
            simp [hfb]
          · rw [if_neg h4]
            simp [hfb]
  · intro st hdr g hhtml hnf h1
    simp [is_openaccess_pdf, if_neg h1, hnf, hhtml]
  · intro st gst hdr ghdr hfb h3
    have h1 : ¬(st = 200 ∧ containsSub (ctypeOf hdr) "pdf" = true) := by
      intro hx
      rw [probeTakesFallback] at hfb
      simp only [hx.1, hx.2] at hfb
      simp at hfb
    have h2 : probeFallback st (ctypeOf hdr) = true := by
      rw [probeTakesFallback] at hfb
      exact (Bool.and_eq_true_iff.mp hfb).2
    simp [is_openaccess_pdf, if_neg h1, h2, if_neg h3]

/-- C4 witness: the four parts of the prober contract applied at concrete
worlds: a 200 PDF HEAD, a 403 HEAD whose fallback GET raises, a 500 HTML
HEAD, and a 403 HEAD whose fallback GET answers a terminal 404. -/
theorem C4_prober_witness :
    (∃ status hdr,
      probeFinal ⟨ProbeOutcome.resp 200 (some "application/PDF"), ProbeOutcome.exc⟩ =
        ProbeOutcome.resp status hdr ∧ status = 200 ∧
        containsSub (ctypeOf hdr) "pdf" = true) ∧
    (is_openaccess_pdf ⟨ProbeOutcome.resp 403 (some "text/html"), ProbeOutcome.exc⟩ =
        none ↔
      (ProbeOutcome.resp 403 (some "text/html") = ProbeOutcome.exc ∨
        (probeTakesFallback ⟨ProbeOutcome.resp 403 (some "text/html"),
          ProbeOutcome.exc⟩ = true ∧ (ProbeOutcome.exc : ProbeOutcome) =
            ProbeOutcome.exc))) ∧
    is_openaccess_pdf ⟨ProbeOutcome.resp 500 (some "text/html"),
      ProbeOutcome.exc⟩ = some false ∧
    is_openaccess_pdf ⟨ProbeOutcome.resp 403 (some "text/html"),
      ProbeOutcome.resp 404 (some "text/html")⟩ = some false :=
  ⟨C4_prober.1 ⟨ProbeOutcome.resp 200 (some "application/PDF"), ProbeOutcome.exc⟩
      (by decide),
    C4_prober.2.1 ⟨ProbeOutcome.resp 403 (some "text/html"), ProbeOutcome.exc⟩,
    C4_prober.2.2.1 500 (some "text/html") ProbeOutcome.exc (by decide) (by decide)
      (by decide),
    C4_prober.2.2.2 403 404 (some "text/html") (some "text/html") (by decide) (by decide)⟩

/- ===============================================================
   PDF fetcher: get_pdf_content_for_wiley
   (src/publishers/wiley_library.py lines 92-146)
   =============================================================== -/

/-- The function build_download_pdf_url_from_doi_for_wiley of the source. -/
def build_download_pdf_url_from_doi_for_wiley (doi : String) : String :=
  "https://agupubs.onlinelibrary.wiley.com/doi/pdfdirect/" ++ doi ++ "?download=true"

/-- Candidate URLs the PDF fetcher probes, in order: the direct-download URL
built from the DOI when the DOI is truthy, then the landing URL and the
landing URL with the download parameter when the landing URL is truthy. -/
def wileyCandidates (doi : Option String) (landing : Option String) : List String :=
  (match doi with
   | some d => if d = "" then [] else [build_download_pdf_url_from_doi_for_wiley d]
   | none => []) ++
  (match landing with
   | some l => if l = "" then [] else [l, l ++ "?download=true"]
   | none => [])

/-- Outcome of one GET of the PDF fetcher: a response with status, optional
Content-Type header and body bytes, or a transport-level exception. -/
inductive PdfAttempt where
  | resp (status : Nat) (contentType : Option String) (body : List Nat)
  | exc
  deriving DecidableEq

/-- The four magic bytes of a PDF body, the characters of %PDF. -/
def pdfMagic : List Nat := [37, 80, 68, 70]

/-- The helper _is_pdf_response of the source: the lowered content type
contains pdf, or the body is nonempty and starts with the PDF magic. -/
def is_pdf_response (contentType : Option String) (body : List Nat) : Bool :=
  containsSub (ctypeOf contentType) "pdf" ||
    (!body.isEmpty && decide (pdfMagic <+: body))

/-- A successful attempt of the PDF fetcher: status 200 and a PDF-looking
response. -/
def pdfSuccess (a : PdfAttempt) : Bool :=
  match a with
  | .resp status ct body => status == 200 && is_pdf_response ct body
  | .exc => false

/-- Observable trace of a get_pdf_content_for_wiley run: the returned bytes
(none meaning the Python None) and the number of GET requests made. -/
structure PdfRun where
  result : Option (List Nat)
  calls : Nat
  deriving DecidableEq

/-- The attempt loop for one candidate URL over the remaining attempt
indices: a success returns the body, a retryable status or a transport
exception moves to the next attempt, any other response abandons the
candidate (the break of the source). -/
def pdfTryGo (w : String → Nat → PdfAttempt) (url : String) :
    List Nat → Nat → Option (List Nat) × Nat
  | [], calls => (none, calls)
  | a :: rest, calls =>
    match w url a with
    | .exc => pdfTryGo w url rest (calls + 1)
    | .resp status ct body =>
      if status == 200 && is_pdf_response ct body then (some body, calls + 1)
      else if retryStatuses.contains status then pdfTryGo w url rest (calls + 1)
      else (none, calls + 1)

/-- The candidate loop of the PDF fetcher: each candidate gets up to 2
attempts; the first success returns, otherwise the next candidate is tried. -/
def pdfCandsGo (w : String → Nat → PdfAttempt) : List String → Nat → PdfRun
  | [], calls => { result := none, calls := calls }
  | url :: rest, calls =>
    match pdfTryGo w url [0, 1] calls with
    | (some b, c) => { result := some b, calls := c }
    | (none, c) => pdfCandsGo w rest c

/-- The function get_pdf_content_for_wiley of src/publishers/wiley_library.py
as a function of the world w giving the outcome of each (url, attempt) GET. -/
def get_pdf_content_for_wiley (w : String → Nat → PdfAttempt)
    (doi : Option String) (landing : Option String) : PdfRun :=
  pdfCandsGo w (wileyCandidates doi landing) 0

lemma pdfTryGo_some (w : String → Nat → PdfAttempt) (url : String) (attempts : List Nat) :
    ∀ calls b c, pdfTryGo w url attempts calls = (some b, c) →
      ∃ a ∈ attempts, ∃ st ct, w url a = PdfAttempt.resp st ct b ∧ st = 200 ∧
        is_pdf_response ct b = true := by
  induction attempts with
  | nil => intro calls b c h; simp [pdfTryGo] at h
  | cons a rest ih =>
    intro calls b c h
    simp only [pdfTryGo] at h
    cases hw : w url a with
    | exc =>
      rw [hw] at h
      obtain ⟨a2, ha2, hrest⟩ := ih _ _ _ h
      exact ⟨a2, by simp [ha2], hrest⟩
    | resp status ct body =>
      rw [hw] at h
      dsimp only at h
      by_cases hs : status == 200 && is_pdf_response ct body
      · rw [if_pos hs] at h
        obtain ⟨hb, _⟩ := Prod.mk.injEq _ _ _ _ ▸ h
        obtain rfl : body = b := by simpa using hb
        have hs2 := Bool.and_eq_true_iff.mp hs
        exact ⟨a, by simp, status, ct, hw, by simpa using hs2.1, hs2.2⟩
      · rw [if_neg hs] at h
        by_cases hr : retryStatuses.contains status
        · rw [if_pos hr] at h
          obtain ⟨a2, ha2, hrest⟩ := ih _ _ _ h
          exact ⟨a2, by simp [ha2], hrest⟩
        · rw [if_neg hr] at h
          simp at h

lemma pdfTryGo_none_of_fail (w : String → Nat → PdfAttempt) (url : String)
    (attempts : List Nat)
    (hfail : ∀ a ∈ attempts, pdfSuccess (w url a) = false) :
    ∀ calls, ∃ c, pdfTryGo w url attempts calls = (none, c) := by
  induction attempts with
  | nil => intro calls; exact ⟨calls, rfl⟩
  | cons a rest ih =>
    intro calls
    have ha := hfail a (by simp)
    have hrest : ∀ a2 ∈ rest, pdfSuccess (w url a2) = false :=
      fun a2 h2 => hfail a2 (by simp [h2])
    simp only [pdfTryGo]
    cases hw : w url a with
    | exc => exact ih hrest (calls + 1)
    | resp status ct body =>
      have hns : (status == 200 && is_pdf_response ct body) = false := by
        rw [hw] at ha
        simpa [pdfSuccess] using ha
      dsimp only
      rw [if_neg (by simp [hns])]
      by_cases hr : retryStatuses.contains status
      · rw [if_pos hr]
        exact ih hrest (calls + 1)
      · rw [if_neg hr]
        exact ⟨calls + 1, rfl⟩

lemma pdfCandsGo_none (w : String → Nat → PdfAttempt) (cands : List String)
    (hfail : ∀ url ∈ cands, ∀ a, pdfSuccess (w url a) = false) :
    ∀ calls, (pdfCandsGo w cands calls).result = none := by
  induction cands with
  | nil => intro calls; rfl
  | cons url rest ih =>
    intro calls
    obtain ⟨c, hc⟩ := pdfTryGo_none_of_fail w url [0, 1]
      (fun a _ => hfail url (by simp) a) calls
    simp only [pdfCandsGo, hc]
    exact ih (fun u hu a => hfail u (by simp [hu]) a) c

lemma pdfCandsGo_some_shape (w : String → Nat → PdfAttempt) (cands : List String) :
    ∀ calls b, (pdfCandsGo w cands calls).result = some b →
      ∃ url ∈ cands, ∃ a st ct, (a = 0 ∨ a = 1) ∧
        w url a = PdfAttempt.resp st ct b ∧ st = 200 ∧ is_pdf_response ct b = true := by
  induction cands with
  | nil => intro calls b h; simp [pdfCandsGo] at h
  | cons url rest ih =>
    intro calls b h
    simp only [pdfCandsGo] at h
    cases htry : pdfTryGo w url [0, 1] calls with
    | mk r c =>
      cases r with
      | some b0 =>
        rw [htry] at h
        dsimp only at h
        obtain rfl : b0 = b := by simpa using h
        obtain ⟨a, ha, st, ct, hw, hst, hpdf⟩ := pdfTryGo_some w url [0, 1] _ _ _ htry
        exact ⟨url, by simp, a, st, ct, by simpa using ha, hw, hst, hpdf⟩
      | none =>
        rw [htry] at h
        dsimp only at h
        obtain ⟨u, hu, rest2⟩ := ih _ _ h
        exact ⟨u, by simp [hu], rest2⟩

lemma pdfCandsGo_reach (w : String → Nat → PdfAttempt) (cands : List String)
    (h : ∃ url ∈ cands, pdfSuccess (w url 0) = true) :
    ∀ calls, ∃ b, (pdfCandsGo w cands calls).result = some b := by
  induction cands with
  | nil => simp at h
  | cons url rest ih =>
    intro calls
    obtain ⟨u, hu, hsucc⟩ := h
    rcases List.mem_cons.mp hu with rfl | hu2
    · cases hw : w u 0 with
      | exc => rw [hw] at hsucc; simp [pdfSuccess] at hsucc
      | resp status ct body =>
        have hcond : (status == 200 && is_pdf_response ct body) = true := by
          rw [hw] at hsucc
          simpa [pdfSuccess] using hsucc
        have htry : pdfTryGo w u [0, 1] calls = (some body, calls + 1) := by
          simp only [pdfTryGo, hw]
          rw [if_pos (by simp [hcond])]
        simp only [pdfCandsGo, htry]
        exact ⟨body, rfl⟩
    · cases htry : pdfTryGo w url [0, 1] calls with
      | mk r c =>
        cases r with
        | some b0 =>
          simp only [pdfCandsGo, htry]
          exact ⟨b0, rfl⟩
        | none =>
          simp only [pdfCandsGo, htry]
          exact ih ⟨u, hu2, hsucc⟩ c

/- ===============================================================
   Claims C5 and C10: contract of the PDF fetcher
   =============================================================== -/

/-- Claim C5 as stated: whenever some candidate answers a success (200 with
PDF content type or PDF magic), the fetcher returns bytes that start with
the PDF magic. -/
def c5ClaimMagicBytes : Prop :=
  ∀ (w : String → Nat → PdfAttempt) (doi landing : Option String),
    (∃ url ∈ wileyCandidates doi landing, pdfSuccess (w url 0) = true) →
    ∃ b, (get_pdf_content_for_wiley w doi landing).result = some b ∧ pdfMagic <+: b

/-- C5 counterexample: a candidate answering 200 with a PDF content type but
a body that does not start with %PDF is returned as is, so the returned
bytes need not start with the PDF magic. -/
theorem C5_counterexample : c5ClaimMagicBytes = False := by
  apply eq_false
  intro h
  obtain ⟨b, hb, hpre⟩ := h
    (fun _ _ => PdfAttempt.resp 200 (some "application/pdf") [111, 111, 112, 115])
    (some "10.1002/xyz") none
    ⟨build_download_pdf_url_from_doi_for_wiley "10.1002/xyz", by decide, by decide⟩
  have hres : (get_pdf_content_for_wiley
      (fun _ _ => PdfAttempt.resp 200 (some "application/pdf") [111, 111, 112, 115])
      (some "10.1002/xyz") none).result = some [111, 111, 112, 115] := by decide
  rw [hres] at hb
  obtain rfl : b = [111, 111, 112, 115] := by simpa using hb.symm
  exact absurd hpre (by decide)

/-- C5 amended: when some candidate answers a success on its first attempt,
the fetcher returns non-null bytes; any returned bytes are the body of some
200 response of a probed candidate that passed the PDF check, which means
the content type contained pdf or the body starts with the PDF magic (so
the bytes start with %PDF whenever success came through the magic-byte
check, but a 200 with PDF content type is returned as is); and when every
attempt of every candidate fails, the fetcher returns null. -/
theorem C5_fetchPdf_amended :
    (∀ (w : String → Nat → PdfAttempt) (doi landing : Option String),
      (∃ url ∈ wileyCandidates doi landing, pdfSuccess (w url 0) = true) →
      ∃ b, (get_pdf_content_for_wiley w doi landing).result = some b) ∧
    (∀ (w : String → Nat → PdfAttempt) (doi landing : Option String) (b : List Nat),
      (get_pdf_content_for_wiley w doi landing).result = some b →
      ∃ url ∈ wileyCandidates doi landing, ∃ a st ct, (a = 0 ∨ a = 1) ∧
        w url a = PdfAttempt.resp st ct b ∧ st = 200 ∧ is_pdf_response ct b = true) ∧
    (∀ (ct : Option String) (b : List Nat), is_pdf_response ct b = true →
      containsSub (ctypeOf ct) "pdf" = true ∨ pdfMagic <+: b) ∧
    (∀ (w : String → Nat → PdfAttempt) (doi landing : Option String),
      (∀ url ∈ wileyCandidates doi landing, ∀ a, pdfSuccess (w url a) = false) →
      (get_pdf_content_for_wiley w doi landing).result = none) := by
  refine ⟨?_, ?_, ?_, ?_⟩
  · intro w doi landing h
    exact pdfCandsGo_reach w (wileyCandidates doi landing) h 0
  · intro w doi landing b h
    exact pdfCandsGo_some_shape w (wileyCandidates doi landing) 0 b h
  · intro ct b h
    have h2 : containsSub (ctypeOf ct) "pdf" = true ∨ ¬b = [] ∧ pdfMagic <+: b := by
      simpa [is_pdf_response] using h
    rcases h2 with h1 | h1
    · exact Or.inl h1
    · exact Or.inr h1.2
  · intro w doi landing hfail
    exact pdfCandsGo_none w (wileyCandidates doi landing) hfail 0

/-- C5 witness: the amended contract applied at concrete worlds: a magic-byte
success returns bytes, a 403-everywhere world returns null, and the PDF
check split at a magic-byte body with no content type. -/
theorem C5_fetchPdf_witness :
    (∃ b, (get_pdf_content_for_wiley
      (fun _ _ => PdfAttempt.resp 200 none [37, 80, 68, 70, 49])
      (some "10.1002/xyz") none).result = some b) ∧
    (get_pdf_content_for_wiley (fun _ _ => PdfAttempt.resp 403 none [])
      (some "10.1002/xyz") (some "https://example.org/landing")).result = none ∧
    (containsSub (ctypeOf none) "pdf" = true ∨ pdfMagic <+: [37, 80, 68, 70, 49]) :=
  ⟨C5_fetchPdf_amended.1 (fun _ _ => PdfAttempt.resp 200 none [37, 80, 68, 70, 49])
      (some "10.1002/xyz") none
      ⟨build_download_pdf_url_from_doi_for_wiley "10.1002/xyz", by decide, by decide⟩,
    C5_fetchPdf_amended.2.2.2 (fun _ _ => PdfAttempt.resp 403 none [])
      (some "10.1002/xyz") (some "https://example.org/landing")
      (fun _ _ _ => rfl),
    C5_fetchPdf_amended.2.2.1 none [37, 80, 68, 70, 49] (by decide)⟩

/-- C10: with both the DOI and the landing URL equal to None, the candidate
list of the PDF fetcher is empty, so for every world no request is made and
the fetcher returns None with zero GET calls. -/
theorem C10_empty_candidates :
    wileyCandidates none none = [] ∧
    ∀ w : String → Nat → PdfAttempt,
      get_pdf_content_for_wiley w none none = { result := none, calls := 0 } :=
  ⟨rfl, fun _ => rfl⟩

/- ===============================================================
   Author and email extractor: extract_principal_author_and_email
   (src/publishers/wiley_library.py lines 47-89)
   =============================================================== -/

/-- What extracting the text of one PDF page yields: an exception inside
extract_text (the page is skipped), no text (None), or a text string
(appended only when nonempty, by Python truthiness). -/
inductive PageOutcome where
  | exc
  | noText
  | text (s : String)
  deriving DecidableEq

/-- What parsing the whole PDF yields: an exception out of PdfReader (caught
by the outer handler), or the list of page outcomes. -/
inductive PdfParse where
  | parseExc
  | pages (ps : List PageOutcome)
  deriving DecidableEq

/-- The page texts that survive the page loop: exception pages and pages
with falsy text are skipped. -/
def pageTexts (ps : List PageOutcome) : List String :=
  ps.filterMap fun p =>
    match p with
    | .exc => none
    | .noText => none
    | .text s => if s = "" then none else some s

/-- The joined text of the surviving pages, newline separated. -/
def joinedText (ps : List PageOutcome) : String :=
  String.intercalate "\n" (pageTexts ps)

/-- One character of the regex class w over ASCII text: letters, digits and
the underscore. -/
def isWordChar (c : Char) : Bool :=
  c.isAlphanum || c == '_'

/-- The character class of the email regex of the source: word characters,
dots and hyphens on both sides of the at sign. -/
def isEmailChar (c : Char) : Bool :=
  isWordChar c || c == '.' || c == '-'

/-- Anchored match of the email regex at the head of l: a nonempty greedy run
of email characters, an at sign, a nonempty greedy run of email characters.
Shorter runs never help because the at sign is not an email character. -/
def emailAt (l : List Char) : Option (List Char) :=
  let r1 := l.takeWhile isEmailChar
  if r1.isEmpty then none
  else
    match l.drop r1.length with
    | '@' :: rest2 =>
      let r2 := rest2.takeWhile isEmailChar
      if r2.isEmpty then none else some (r1 ++ '@' :: r2)
    | _ => none

/-- First match of the email regex: try each start position left to right. -/
def firstEmailGo : List Char → Option (List Char)
  | [] => none
  | c :: rest =>
    match emailAt (c :: rest) with
    | some m => some m
    | none => firstEmailGo rest

/-- The first email-shaped token of the text, as re.findall would list it
first; none when the text has no match. -/
def findFirstEmail (text : String) : Option String :=
  (firstEmailGo text.toList).map String.mk

example : findFirstEmail "contact jane@example.com or x" = some "jane@example.com" := by
  decide
example : findFirstEmail "no emails here" = none := by decide

lemma length_takeWhile_le (p : Char → Bool) (l : List Char) :
    (l.takeWhile p).length ≤ l.length := by
  induction l with
  | nil => simp
  | cons c r ih =>
    rw [List.takeWhile_cons]
    by_cases h : p c
    · simpa [h] using ih
    · simp [h]

/-- Greedy tail groups of the name regex: zero or more repetitions of
nonempty whitespace, one uppercase letter, a nonempty greedy run of
lowercase letters. Returns the consumed characters and the remainder.
Maximal runs are forced because the classes are disjoint and nothing
follows the group in the pattern. The fuel starts at the length of the
input, which suffices because every recursion consumes at least two
characters. -/
def nameGroupsGo : Nat → List Char → List Char × List Char
  | 0, l => ([], l)
  | fuel + 1, l =>
    let sp := l.takeWhile isPySpace
    if sp.isEmpty then ([], l)
    else
      match l.drop sp.length with
      | [] => ([], l)
      | u :: rest2 =>
        if u.isUpper then
          let lows := rest2.takeWhile Char.isLower
          if lows.isEmpty then ([], l)
          else
            let gr := nameGroupsGo fuel (rest2.drop lows.length)
            (sp ++ u :: (lows ++ gr.1), gr.2)
        else ([], l)

def nameGroups (l : List Char) : List Char × List Char :=
  nameGroupsGo l.length l

/-- Anchored match of the name regex at the head of l: one uppercase letter,
a nonempty greedy lowercase run, then at least one group of nameGroups.
Returns the match and the remainder after it. -/
def nameAt (l : List Char) : Option (List Char × List Char) :=
  match l with
  | [] => none
  | u :: rest =>
    if u.isUpper then
      let lows := rest.takeWhile Char.isLower
      if lows.isEmpty then none
      else
        let gr := nameGroups (rest.drop lows.length)
        if gr.1.isEmpty then none
        else some (u :: (lows ++ gr.1), gr.2)
    else none

/-- Scan of re.findall for the name regex: try each position left to right,
continuing after the end of each (nonempty, hence non-overlapping) match.
The fuel starts at the length of the scanned list, which suffices because
every step strictly shortens the list: a miss drops one character and a hit
consumes its nonempty match. -/
def nameMatchesGo : Nat → List Char → List (List Char)
  | 0, _ => []
  | _, [] => []
  | fuel + 1, c :: rest =>
    match nameAt (c :: rest) with
    | some (m, rem) => m :: nameMatchesGo fuel rem
    | none => nameMatchesGo fuel rest

/-- All matches of the name regex in scan order. -/
def nameMatches (l : List Char) : List (List Char) :=
  nameMatchesGo l.length l

/-- The prefix of the text before the first occurrence of sep, the Python
expression text.split(sep)[0]; the whole text when sep does not occur. -/
def splitFirstGo (sep : List Char) : List Char → List Char → List Char
  | [], acc => acc.reverse
  | c :: rest, acc =>
    if sep <+: (c :: rest) then acc.reverse
    else splitFirstGo sep rest (c :: acc)

def splitFirst (text sep : String) : String :=
  String.mk (splitFirstGo sep.toList text.toList [])

/-- Line boundary characters of the Python method str.splitlines. -/
def isLineBoundary (c : Char) : Bool :=
  c == '\n' || c == '\r' || c == '\x0b' || c == '\x0c' || c == '\x1c' ||
    c == '\x1d' || c == '\x1e' || c == '\x85' || c == '\u2028' || c == '\u2029'

/-- The Python method str.splitlines: split at line boundaries, treating a
carriage return followed by a newline as one boundary, with no trailing
empty line. -/
def splitlinesGo : List Char → List Char → List (List Char)
  | [], acc => if acc.isEmpty then [] else [acc.reverse]
  | '\r' :: '\n' :: rest, acc => acc.reverse :: splitlinesGo rest []
  | c :: rest, acc =>
    if isLineBoundary c then acc.reverse :: splitlinesGo rest []
    else splitlinesGo rest (c :: acc)

def splitLinesPy (s : String) : List String :=
  (splitlinesGo s.toList []).map String.mk

/-- The last five entries of a list, the Python slice with index -5. -/
def lastFive (l : List String) : List String :=
  l.drop (l.length - 5)

/-- First line (of an already reversed line list) with a name match, taking
the last match of that line, as the source loop does. -/
def firstLineName : List String → Option (List Char)
  | [] => none
  | line :: rest =>
    match (nameMatches line.toList).getLast? with
    | some m => some m
    | none => firstLineName rest

/-- The function extract_principal_author_and_email of the source as a
function of the parse world: on a parse exception the outer handler returns
(None, None); pages are joined (skipping failed and falsy pages); blank text
returns (None, None); otherwise the first email is taken and the name is
guessed from the last five nonblank lines before the email, scanned in
reverse, falling back to the whole preceding text. The embedding is a total
function, so no exception can propagate to the caller. -/
def extract_principal_author_and_email (pdf : PdfParse) : Option String × Option String :=
  match pdf with
  | .parseExc => (none, none)
  | .pages ps =>
    let text := joinedText ps
    if stripList text.toList = [] then (none, none)
    else
      match findFirstEmail text with
      | none => (none, none)
      | some email =>
        let beforeEmail := splitFirst text email
        let lines := (splitLinesPy beforeEmail).filterMap fun ln =>
          if pyStrip ln = "" then none else some (pyStrip ln)
        let name :=
          match firstLineName (lastFive lines).reverse with
          | some m => some (String.mk m)
          | none =>
            match (nameMatches beforeEmail.toList).getLast? with
            | some m => some (String.mk m)
            | none => none
        (name, some email)

example :
    extract_principal_author_and_email (PdfParse.pages
      [PageOutcome.text "Climate Study\nJane Doe\njane@example.com"]) =
      (some "Jane Doe", some "jane@example.com") := by decide

example :
    extract_principal_author_and_email (PdfParse.pages [PageOutcome.text "no contact"]) =
      (none, none) := by decide

/- ===============================================================
   Claim C9: crash safety of the extractor
   =============================================================== -/

/-- C9: a parse exception out of PdfReader yields (None, None) through the
outer handler; a page whose extract_text raises is skipped and contributes
no text; and when no text is recoverable (the joined text strips to
nothing) the extractor returns (None, None). The embedding is a total
function of the parse world, so no input makes the call propagate an
exception. -/
theorem C9_extractor_safe :
    extract_principal_author_and_email PdfParse.parseExc = (none, none) ∧
    (∀ ps : List PageOutcome, pageTexts (PageOutcome.exc :: ps) = pageTexts ps) ∧
    (∀ ps : List PageOutcome, stripList (joinedText ps).toList = [] →
      extract_principal_author_and_email (PdfParse.pages ps) = (none, none)) := by
  refine ⟨rfl, fun ps => by simp [pageTexts], ?_⟩
  intro ps h
  have h2 : stripList (joinedText ps).data = [] := h
  simp [extract_principal_author_and_email, h2]

/-- C9 witness: the no-text contract applied to a parse world with a failing
page, a textless page, a whitespace-only page and an empty-text page. -/
theorem C9_extractor_witness :
    extract_principal_author_and_email (PdfParse.pages
      [PageOutcome.exc, PageOutcome.noText, PageOutcome.text "  ", PageOutcome.text ""]) =
      (none, none) :=
  C9_extractor_safe.2.2
    [PageOutcome.exc, PageOutcome.noText, PageOutcome.text "  ", PageOutcome.text ""]
    (by decide)

/- ===============================================================
   Harvest orchestrator: process_wiley_library
   (src/publishers/wiley_library.py lines 290-434)
   =============================================================== -/

/-- The canonical record dict built by _normalise_record (source lines
208-238). All fields are optional except the two list-valued ones. -/
structure WileyRecord where
  doi : Option String := none
  doi_raw : Option String := none
  title : Option String := none
  abstract : Option String := none
  authors : List String := []
  published_date : Option String := none
  issued_year : Option String := none
  journal : Option String := none
  volume : Option String := none
  issue : Option String := none
  start_page : Option String := none
  landing_url : Option String := none
  subjects : List String := []
  deriving DecidableEq

/-- Shape of the article_data dict of the insert block (source lines
388-405). That whole block, including the append to processed_articles and
the increment of total_processed, is commented out in the source, so no run
of the embedded orchestrator ever constructs a value of this type. -/
structure ArticleRow where
  title : Option String
  doi : Option String
  year : Option Int
  source_url : String
  landing_url : String
  calc_hash : String
  authors : Option String
  author_email : Option String
  keywords : String
  journal_name : String
  publisher_name : String
  topic : String
  deriving DecidableEq

/-- The configuration constants the source imports from the external module
publisher_settings (not part of this repository): MAX_ARTICLES, BATCH_SIZE
and PUBLISHER_NAME_FOR_DB, passed explicitly here. -/
structure WileyConfig where
  maxArticles : Nat
  batchSize : Int
  pubName : String
  deriving DecidableEq

/-- The collaborators of the orchestrator, abstracted exactly as the
repository unit tests monkeypatch them: the page fetcher (keyed by the query
and the start record; the worlds modelled here are non-raising runs), the
record normaliser over opaque nodes, the open-access prober, the PDF
fetcher, the author and email extractor, and the fingerprint digest (the
sha-256 hex digest hashify; a deterministic function). -/
structure WileyOracles (Node : Type) where
  fetchPage : String → Int → List Node × Option Int
  normRec : Node → WileyRecord
  isOA : String → Option Bool
  getPdf : Option String → Option String → Option (List Nat)
  extract : List Nat → Option String × Option String
  hashify : String → String

/-- Python f-string rendering of an optional string: None prints as None. -/
def pyOptStr : Option String → String
  | none => "None"
  | some s => s

/-- The Python expression doi or "no-doi": falsy values give the default. -/
def doiOrNoDoi : Option String → String
  | none => "no-doi"
  | some s => if s = "" then "no-doi" else s

/-- Split at slashes, keeping empty components, as the Python method split
does. -/
def splitOnSlash : List Char → List (List Char)
  | [] => [[]]
  | c :: rest =>
    if c = '/' then [] :: splitOnSlash rest
    else
      match splitOnSlash rest with
      | h :: t => (c :: h) :: t
      | [] => [[c]]

/-- The Python expression s.split('/')[-1]. -/
def lastSlashComp (s : String) : String :=
  String.mk (((splitOnSlash s.toList).getLast?).getD [])

/-- The Python expression for the keyword part of the artifact name: the
lowered underscore join of the keywords, or all for an empty list. -/
def wrapperKeywords (keywords : List String) : String :=
  match keywords with
  | [] => "all"
  | _ => lowerStr (String.intercalate "_" keywords)

/-- The Python expression kw.replace with an escaped double quote. -/
def escapeQuotes (s : String) : String :=
  String.mk (s.toList.flatMap fun c => if c = '"' then ['\\', '"'] else [c])

/-- The CQL query construction of the source (lines 306-312). -/
def buildCql (keywords : List String) : String :=
  let parts := keywords.flatMap fun kw =>
    let kwEsc := escapeQuotes kw
    ["dc.title=\"" ++ kwEsc ++ "\"", "dc.description=\"" ++ kwEsc ++ "\"",
      "dc.subject=\"" ++ kwEsc ++ "\""]
  if parts = [] then "dc.type=article"
  else "(" ++ String.intercalate " OR " parts ++ ") AND dc.type=article"

/-- The fingerprint of one record: hashify applied to the f-string of the
DOI, a space, and the title defaulted to the empty string (source line
351). -/
def fingerprintOf {Node : Type} (oc : WileyOracles Node) (n : Node) : String :=
  oc.hashify (pyOptStr (oc.normRec n).doi ++ " " ++ ((oc.normRec n).title.getD ""))

/-- Run state of the orchestrator that the node loop touches: the result
list, the counter, the seen fingerprints, and the log of save_pdf calls. -/
structure HarvestState where
  processed : List ArticleRow
  total : Nat
  seen : List String
  saveLog : List String
  deriving DecidableEq

/-- Body of the per-node loop over the open-access nodes (source lines
345-420): recompute the record, compute the fingerprint, skip silently when
it was already seen this run, otherwise mark it seen, fetch the PDF (skip
when falsy), extract author and email (skip when the email is falsy), and
save the artifact. The append to processed_articles and the increment of
total_processed are part of the commented-out insert block (lines 407-413)
and therefore absent; the cap check of line 415 is kept. The year parse of
source lines 350-356 is omitted: its result is read only by the commented-out
block, so it has no observable effect (its ValueError is caught locally).
Returns the new state and the break flag. -/
def processOpenNode {Node : Type} (cfg : WileyConfig) (oc : WileyOracles Node)
    (keywords : List String) (st : HarvestState) (node : Node) :
    HarvestState × Bool :=
  let record := oc.normRec node
  let calc_hash := fingerprintOf oc node
  if calc_hash ∈ st.seen then (st, false)
  else
    let st1 := { st with seen := calc_hash :: st.seen }
    match oc.getPdf record.doi record.landing_url with
    | none => (st1, false)
    | some pdf =>
      if pdf = [] then (st1, false)
      else
        match (oc.extract pdf).2 with
        | none => (st1, false)
        | some email =>
          if email = "" then (st1, false)
          else
            let pdf_name := cfg.pubName ++ "_" ++ wrapperKeywords keywords ++ "_" ++
              lastSlashComp (doiOrNoDoi record.doi) ++ ".pdf"
            let st2 := { st1 with saveLog := st1.saveLog ++ [pdf_name] }
            if cfg.maxArticles ≤ st2.total then (st2, true) else (st2, false)

/-- The per-node loop with its break. -/
def processNodes {Node : Type} (cfg : WileyConfig) (oc : WileyOracles Node)
    (keywords : List String) : HarvestState → List Node → HarvestState
  | st, [] => st
  | st, n :: rest =>
    let r := processOpenNode cfg oc keywords st n
    if r.2 then r.1 else processNodes cfg oc keywords r.1 rest

/-- The open-access filter of the first per-page loop (source lines 331-343):
keep a node when its normalised DOI is truthy and the prober answer is
truthy, that is some true. -/
def isOpenNode {Node : Type} (oc : WileyOracles Node) (n : Node) : Bool :=
  match (oc.normRec n).doi with
  | none => false
  | some d => if d = "" then false else oc.isOA d == some true

/-- Python truthiness of the optional integer cursor: None and 0 are falsy. -/
def truthyPos : Option Int → Bool
  | none => false
  | some v => v != 0

/-- Loop state of the outer while loop: the harvest state, the page counter
and the cursor. -/
structure PageState where
  hs : HarvestState
  page : Int
  nextPos : Option Int
  deriving DecidableEq

/-- The outer while loop of process_wiley_library (source lines 318-427):
while the counter is under the cap and the cursor is truthy, fetch a page
(updating the cursor), stop on an empty page, filter the open-access nodes,
run the node loop, stop without a page increment when capped, otherwise
advance the page counter. The fuel bounds the number of iterations; the
Python loop can run unboundedly on a world that keeps producing cursors and
nonempty pages. -/
def harvestPages {Node : Type} (cfg : WileyConfig) (oc : WileyOracles Node)
    (keywords : List String) (cql : String) : Nat → PageState → PageState
  | 0, ps => ps
  | fuel + 1, ps =>
    if ps.hs.total < cfg.maxArticles ∧ truthyPos ps.nextPos = true then
      match ps.nextPos with
      | none => ps
      | some v =>
        let fr := oc.fetchPage cql v
        let ps1 := { ps with nextPos := fr.2 }
        if fr.1.isEmpty then ps1
        else
          let openNodes := fr.1.filter fun n => isOpenNode oc n
          let hs2 := processNodes cfg oc keywords ps1.hs openNodes
          if cfg.maxArticles ≤ hs2.total then { ps1 with hs := hs2 }
          else
            harvestPages cfg oc keywords cql fuel
              { hs := hs2, page := ps1.page + 1, nextPos := ps1.nextPos }
    else ps

/-- What a run returns, plus the save log as an extra observable. The source
returns (processed_articles, total_processed, page). -/
structure HarvestResult where
  processed : List ArticleRow
  total : Nat
  page : Int
  saveLog : List String
  deriving DecidableEq

/-- The function process_wiley_library of src/publishers/wiley_library.py as
a function of fuel, configuration, oracles, keywords and start page:
build the query, compute the initial page counter and cursor, run the
paging loop, return the collected articles, the counter and the page
counter. -/
def process_wiley_library {Node : Type} (fuel : Nat) (cfg : WileyConfig)
    (oc : WileyOracles Node) (keywords : List String) (start_page : Int) :
    HarvestResult :=
  let cql := buildCql keywords
  let page0 : Int := if start_page > 0 then start_page else 1
  let next0 : Option Int :=
    if start_page < 1 then some 1 else some ((start_page - 1) * cfg.batchSize + 1)
  let ps := harvestPages cfg oc keywords cql fuel
    { hs := { processed := [], total := 0, seen := [], saveLog := [] },
      page := page0, nextPos := next0 }
  { processed := ps.hs.processed, total := ps.hs.total, page := ps.page,
    saveLog := ps.hs.saveLog }

/- ===============================================================
   Claims C1 and C2: what a run actually returns
   =============================================================== -/

/-- The single happy-path record of the C1 scenario. -/
def recC1 : WileyRecord :=
  { doi := some "10.1029/2007gl030025",
    doi_raw := some "10.1029/2007gl030025",
    title := some "Assessment of the use of current climate patterns to evaluate regional enhanced greenhouse response patterns of climate models",
    published_date := some "2007-07-17",
    issued_year := some "2007",
    landing_url := some "https://onlinelibrary.wiley.com/doi/10.1029/2007GL030025",
    subjects := ["climate change"] }

/-- PDF bytes of the happy-path worlds: the magic and a version marker. -/
def pdfBytesC1 : List Nat := [37, 80, 68, 70, 45, 49, 46, 52]

/-- Oracles of the C1 scenario: one page with the one record, confirmed
open access, downloadable PDF bytes, extractable author and email. The
fingerprint digest is the identity, sufficient for a single record. -/
def ocC1 : WileyOracles WileyRecord :=
  { fetchPage := fun _ v => if v = 1 then ([recC1], none) else ([], none),
    normRec := id,
    isOA := fun _ => some true,
    getPdf := fun _ _ => some pdfBytesC1,
    extract := fun _ => (some "Jane Doe", some "jane@example.com"),
    hashify := fun s => s }

def cfgC1 : WileyConfig := { maxArticles := 10, batchSize := 20, pubName := "WileyLibrary" }

/-- C1: on the happy-path scenario of the claim (one page, one record with a
DOI, confirmed open access, PDF bytes available, author and email
extracted), the code as written returns an empty result list and
totalProcessed equal to 0, although the whole pipeline ran and the artifact
was saved, because the append and increment block is commented out in the
source; the next page counter is 2 as the claim states. The repository unit
test test_process_wiley_library_happy_path asserts total == 1 and one
returned record on this very scenario, so the code contradicts its own
test. -/
theorem C1_code_eval :
    process_wiley_library 5 cfgC1 ocC1 ["climate"] 1 =
      { processed := [], total := 0, page := 2,
        saveLog := ["WileyLibrary_climate_2007gl030025.pdf"] } := by
  decide

/-- The five distinct passing records of the C2 scenario. -/
def recsC2 : List WileyRecord :=
  [{ doi := some "10.1002/r0", title := some "T0" },
   { doi := some "10.1002/r1", title := some "T1" },
   { doi := some "10.1002/r2", title := some "T2" },
   { doi := some "10.1002/r3", title := some "T3" },
   { doi := some "10.1002/r4", title := some "T4" }]

/-- Oracles of the C2 scenario: one page of five distinct passing records. -/
def ocC2 : WileyOracles WileyRecord :=
  { fetchPage := fun _ v => if v = 1 then (recsC2, none) else ([], none),
    normRec := id,
    isOA := fun _ => some true,
    getPdf := fun _ _ => some pdfBytesC1,
    extract := fun _ => (some "Jane Doe", some "jane@example.com"),
    hashify := fun s => s }

/-- MAX_ARTICLES = 2 as in the claim scenario. -/
def cfgC2 : WileyConfig := { maxArticles := 2, batchSize := 20, pubName := "WileyLibrary" }

/-- C2: with MAX_ARTICLES = 2 and a page of five open-access records passing
every stage, the code does not stop after two: total_processed is never
incremented (the increment sits in the commented-out insert block), so the
cap condition never fires, all five records run through the pipeline (five
artifacts saved), and the run returns totalProcessed equal to 0 with an
empty result list instead of stopping at exactly 2. -/
theorem C2_code_eval :
    (process_wiley_library 5 cfgC2 ocC2 ["climate"] 1).total = 0 ∧
    (process_wiley_library 5 cfgC2 ocC2 ["climate"] 1).saveLog.length = 5 ∧
    (process_wiley_library 5 cfgC2 ocC2 ["climate"] 1).processed = [] := by
  decide

/- ===============================================================
   Claim C8: fingerprint dedup within one run
   =============================================================== -/

/-- A record and a field-wise variant sharing its DOI and title. -/
def recC8a : WileyRecord :=
  { doi := some "10.1029/2007gl030025", title := some "Assessment", subjects := ["x"] }

def recC8b : WileyRecord :=
  { doi := some "10.1029/2007gl030025", title := some "Assessment", subjects := ["y"] }

/-- Oracles of the C8 scenario: one page carrying the same record twice. -/
def ocC8 : WileyOracles WileyRecord :=
  { fetchPage := fun _ v => if v = 1 then ([recC8a, recC8b], none) else ([], none),
    normRec := id,
    isOA := fun _ => some true,
    getPdf := fun _ _ => some pdfBytesC1,
    extract := fun _ => (some "Jane Doe", some "jane@example.com"),
    hashify := fun s => s }

def cfgC8 : WileyConfig := { maxArticles := 10, batchSize := 20, pubName := "WileyLibrary" }

/-- C8: two records with the same DOI and title have the same fingerprint
digest (the digest is a function of DOI and title alone); a node whose
fingerprint is already in the run-scoped seen set is skipped silently, with
the state, hence the save log, the counter and the seen set, left unchanged;
the seen set only grows across any node step; and on a concrete page
carrying the same record twice, exactly one artifact write happens. -/
theorem C8_dedup :
    (∀ (Node : Type) (oc : WileyOracles Node) (n1 n2 : Node),
      (oc.normRec n1).doi = (oc.normRec n2).doi →
      (oc.normRec n1).title = (oc.normRec n2).title →
      fingerprintOf oc n1 = fingerprintOf oc n2) ∧
    (∀ (Node : Type) (cfg : WileyConfig) (oc : WileyOracles Node)
      (keywords : List String) (st : HarvestState) (n : Node),
      fingerprintOf oc n ∈ st.seen →
      processOpenNode cfg oc keywords st n = (st, false)) ∧
    (∀ (Node : Type) (cfg : WileyConfig) (oc : WileyOracles Node)
      (keywords : List String) (st : HarvestState) (n : Node),
      st.seen ⊆ ((processOpenNode cfg oc keywords st n).1).seen) ∧
    (process_wiley_library 5 cfgC8 ocC8 ["climate"] 1).saveLog =
      ["WileyLibrary_climate_2007gl030025.pdf"] := by
  refine ⟨?_, ?_, ?_, by decide⟩
  · intro Node oc n1 n2 h1 h2
    unfold fingerprintOf
    rw [h1, h2]
  · intro Node cfg oc keywords st n hmem
    unfold processOpenNode
    rw [if_pos hmem]
  · intro Node cfg oc keywords st n x hx
    unfold processOpenNode
    by_cases hmem : fingerprintOf oc n ∈ st.seen
    · rw [if_pos hmem]
      exact hx
    · rw [if_neg hmem]
      dsimp only
      cases oc.getPdf (oc.normRec n).doi (oc.normRec n).landing_url with
      | none => exact List.mem_cons_of_mem _ hx
      | some pdf =>
        dsimp only
        by_cases hp : pdf = []
        · rw [if_pos hp]
          exact List.mem_cons_of_mem _ hx
        · rw [if_neg hp]
          cases (oc.extract pdf).2 with
          | none => exact List.mem_cons_of_mem _ hx
          | some email =>
            dsimp only
            by_cases he : email = ""
            · rw [if_pos he]
              exact List.mem_cons_of_mem _ hx
            · rw [if_neg he]
              split
              · exact List.mem_cons_of_mem _ hx
              · exact List.mem_cons_of_mem _ hx

/-- State for the C8 witness: the fingerprint of the variant records is
already in the seen set. -/
def stC8 : HarvestState :=
  { processed := [], total := 0, seen := ["10.1029/2007gl030025 Assessment"],
    saveLog := [] }

/-- C8 witness: equal fingerprints of the two variant records, the silent
skip at a state that has already seen their fingerprint, and the growth of
the seen set across that step. -/
theorem C8_dedup_witness :
    fingerprintOf ocC8 recC8a = fingerprintOf ocC8 recC8b ∧
    processOpenNode cfgC8 ocC8 ["climate"] stC8 recC8a = (stC8, false) ∧
    "10.1029/2007gl030025 Assessment" ∈
      ((processOpenNode cfgC8 ocC8 ["climate"] stC8 recC8a).1).seen :=
  ⟨C8_dedup.1 WileyRecord ocC8 recC8a recC8b rfl rfl,
    C8_dedup.2.1 WileyRecord cfgC8 ocC8 ["climate"] stC8 recC8a (by decide),
    C8_dedup.2.2.1 WileyRecord cfgC8 ocC8 ["climate"] stC8 recC8a (by decide)⟩
